import Mathlib

/-!
Verification of the cosign signing/verification engine specification
against a shallow embedding of the source (pkg/cosign/sign.go and the
cli verify-blob command).

Go strings and byte slices are both byte strings; we embed both as
`List Nat` with bytes < 256 where it matters.  Fallible operations
return `Option`/`Except`.  External collaborators (file system, KMS,
transparency log, x509/pem/encryption primitives) are abstracted as
explicit parameters so that the control flow of the repository's own
code is modelled exactly.
-/

namespace Cosign

/-- Byte strings: Go strings and byte slices. -/
abbrev Bytes := List Nat

/-- ASCII byte string literal helper (used only to build constants). -/
def strBytes (s : String) : Bytes := s.data.map Char.toNat

/-! ### Base64 (Go encoding/base64 StdEncoding)

`base64.StdEncoding.EncodeToString` / `DecodeString` as used by
`isb64` and the signature normalization in VerifyBlobCmd.  The decoder
is the padded standard alphabet, non-strict about trailing bits (Go's
default), and ignores CR/LF bytes as Go's decoder does. -/

/-- Value of the standard base64 alphabet at index `n` (`n < 64`). -/
def b64EncodeChar (n : Nat) : Nat :=
  if n < 26 then 65 + n
  else if n < 52 then 97 + (n - 26)
  else if n < 62 then 48 + (n - 52)
  else if n = 62 then 43
  else 47

/-- Index of byte `c` in the standard base64 alphabet, if any. -/
def b64DecodeChar (c : Nat) : Option Nat :=
  if 65 ≤ c ∧ c ≤ 90 then some (c - 65)
  else if 97 ≤ c ∧ c ≤ 122 then some (c - 97 + 26)
  else if 48 ≤ c ∧ c ≤ 57 then some (c - 48 + 52)
  else if c = 43 then some 62
  else if c = 47 then some 63
  else none

/-- Standard base64 encoding with padding of a byte string. -/
def b64encode : Bytes → Bytes
  | [] => []
  | [a] => [b64EncodeChar (a / 4), b64EncodeChar (a % 4 * 16), 61, 61]
  | [a, b] => [b64EncodeChar (a / 4), b64EncodeChar (a % 4 * 16 + b / 16),
               b64EncodeChar (b % 16 * 4), 61]
  | a :: b :: c :: rest =>
      b64EncodeChar (a / 4) :: b64EncodeChar (a % 4 * 16 + b / 16) ::
      b64EncodeChar (b % 16 * 4 + c / 64) :: b64EncodeChar (c % 64) ::
      b64encode rest

/-- Decode base64 quanta (input already stripped of CR/LF). -/
def b64decodeQ : Bytes → Option Bytes
  | [] => some []
  | c1 :: c2 :: c3 :: c4 :: rest =>
    match b64DecodeChar c1, b64DecodeChar c2 with
    | some x1, some x2 =>
      if c3 = 61 then
        if c4 = 61 ∧ rest = [] then some [x1 * 4 + x2 / 16] else none
      else
        match b64DecodeChar c3 with
        | some x3 =>
          if c4 = 61 then
            if rest = [] then some [x1 * 4 + x2 / 16, x2 % 16 * 16 + x3 / 4]
            else none
          else
            match b64DecodeChar c4 with
            | some x4 =>
              match b64decodeQ rest with
              | some tail =>
                  some ((x1 * 4 + x2 / 16) :: (x2 % 16 * 16 + x3 / 4) ::
                        (x3 % 4 * 64 + x4) :: tail)
              | none => none
            | none => none
        | none => none
    | _, _ => none
  | _ => none

/-- Go's base64 decoder skips CR and LF bytes anywhere in the input. -/
def stripNewlines (l : Bytes) : Bytes :=
  l.filter (fun b => !(b == 10 || b == 13))

/-- Model of base64.StdEncoding.DecodeString. -/
def b64decode (l : Bytes) : Option Bytes :=
  b64decodeQ (stripNewlines l)

/-- Model of the source's isb64: does a base64 decode succeed. -/
def isb64 (data : Bytes) : Bool :=
  (b64decode data).isSome

/-- Well-formed byte strings: every element is an actual byte. -/
def ValidBytes (l : Bytes) : Prop := ∀ b ∈ l, b < 256

instance : DecidablePred ValidBytes := fun l =>
  inferInstanceAs (Decidable (∀ b ∈ l, b < 256))

theorem b64DecodeChar_b64EncodeChar : ∀ n < 64, b64DecodeChar (b64EncodeChar n) = some n := by
  decide

theorem b64EncodeChar_not_nl : ∀ n < 64, b64EncodeChar n ≠ 10 ∧ b64EncodeChar n ≠ 13 := by
  decide

theorem b64EncodeChar_ne_pad : ∀ n < 64, b64EncodeChar n ≠ 61 := by
  decide

theorem stripNewlines_cons_keep (x : Nat) (l : Bytes) (h10 : x ≠ 10) (h13 : x ≠ 13) :
    stripNewlines (x :: l) = x :: stripNewlines l := by
  simp [stripNewlines, List.filter_cons, h10, h13]

theorem stripNewlines_b64encode (s : Bytes) (hs : ValidBytes s) :
    stripNewlines (b64encode s) = b64encode s := by
  induction s using b64encode.induct with
  | case1 => simp [b64encode, stripNewlines]
  | case2 a =>
    have ha : a < 256 := hs a (by simp)
    have h1 := b64EncodeChar_not_nl (a / 4) (by omega)
    have h2 := b64EncodeChar_not_nl (a % 4 * 16) (by omega)
    simp only [b64encode]
    rw [stripNewlines_cons_keep _ _ h1.1 h1.2, stripNewlines_cons_keep _ _ h2.1 h2.2,
      stripNewlines_cons_keep _ _ (by omega) (by omega),
      stripNewlines_cons_keep _ _ (by omega) (by omega)]
    simp [stripNewlines]
  | case3 a b =>
    have ha : a < 256 := hs a (by simp)
    have hb : b < 256 := hs b (by simp)
    have h1 := b64EncodeChar_not_nl (a / 4) (by omega)
    have h2 := b64EncodeChar_not_nl (a % 4 * 16 + b / 16) (by omega)
    have h3 := b64EncodeChar_not_nl (b % 16 * 4) (by omega)
    simp only [b64encode]
    rw [stripNewlines_cons_keep _ _ h1.1 h1.2, stripNewlines_cons_keep _ _ h2.1 h2.2,
      stripNewlines_cons_keep _ _ h3.1 h3.2,
      stripNewlines_cons_keep _ _ (by omega) (by omega)]
    simp [stripNewlines]
  | case4 a b c rest ih =>
    have ha : a < 256 := hs a (by simp)
    have hb : b < 256 := hs b (by simp)
    have hc : c < 256 := hs c (by simp)
    have hrest : ValidBytes rest := fun x hx => hs x (by simp [hx])
    have h1 := b64EncodeChar_not_nl (a / 4) (by omega)
    have h2 := b64EncodeChar_not_nl (a % 4 * 16 + b / 16) (by omega)
    have h3 := b64EncodeChar_not_nl (b % 16 * 4 + c / 64) (by omega)
    have h4 := b64EncodeChar_not_nl (c % 64) (by omega)
    simp only [b64encode]
    rw [stripNewlines_cons_keep _ _ h1.1 h1.2, stripNewlines_cons_keep _ _ h2.1 h2.2,
      stripNewlines_cons_keep _ _ h3.1 h3.2, stripNewlines_cons_keep _ _ h4.1 h4.2,
      ih hrest]

theorem b64decodeQ_b64encode (s : Bytes) (hs : ValidBytes s) :
    b64decodeQ (b64encode s) = some s := by
  induction s using b64encode.induct with
  | case1 => simp [b64encode, b64decodeQ]
  | case2 a =>
    have ha : a < 256 := hs a (by simp)
    have h1 := b64DecodeChar_b64EncodeChar (a / 4) (by omega)
    have h2 := b64DecodeChar_b64EncodeChar (a % 4 * 16) (by omega)
    simp [b64encode, b64decodeQ, h1, h2]
    omega
  | case3 a b =>
    have ha : a < 256 := hs a (by simp)
    have hb : b < 256 := hs b (by simp)
    have h1 := b64DecodeChar_b64EncodeChar (a / 4) (by omega)
    have h2 := b64DecodeChar_b64EncodeChar (a % 4 * 16 + b / 16) (by omega)
    have h3 := b64DecodeChar_b64EncodeChar (b % 16 * 4) (by omega)
    have hp3 := b64EncodeChar_ne_pad (b % 16 * 4) (by omega)
    simp [b64encode, b64decodeQ, h1, h2, h3, hp3]
    omega
  | case4 a b c rest ih =>
    have ha : a < 256 := hs a (by simp)
    have hb : b < 256 := hs b (by simp)
    have hc : c < 256 := hs c (by simp)
    have hrest : ValidBytes rest := fun x hx => hs x (by simp [hx])
    have h1 := b64DecodeChar_b64EncodeChar (a / 4) (by omega)
    have h2 := b64DecodeChar_b64EncodeChar (a % 4 * 16 + b / 16) (by omega)
    have h3 := b64DecodeChar_b64EncodeChar (b % 16 * 4 + c / 64) (by omega)
    have h4 := b64DecodeChar_b64EncodeChar (c % 64) (by omega)
    have hp3 := b64EncodeChar_ne_pad (b % 16 * 4 + c / 64) (by omega)
    have hp4 := b64EncodeChar_ne_pad (c % 64) (by omega)
    simp [b64encode, b64decodeQ, h1, h2, h3, h4, hp3, hp4, ih hrest]
    refine ⟨?_, ?_, ?_⟩ <;> omega

/-- Round trip: Go's decoder inverts the encoder on actual byte strings. -/
theorem b64decode_b64encode (s : Bytes) (hs : ValidBytes s) :
    b64decode (b64encode s) = some s := by
  rw [b64decode, stripNewlines_b64encode s hs, b64decodeQ_b64encode s hs]

theorem isb64_b64encode (s : Bytes) (hs : ValidBytes s) : isb64 (b64encode s) = true := by
  simp [isb64, b64decode_b64encode s hs]

/-! ### Signature input normalization (VerifyBlobCmd)

The source's inline normalization of signature file contents: if the
bytes already decode as base64 they are taken verbatim, otherwise they
are base64-encoded.  The internal signature bytes are the final base64
decode of the normalized text. -/

/-- Normalization of signature bytes read from a file, from VerifyBlobCmd:
if isb64 then keep verbatim else base64-encode. -/
def normalizeSig (b : Bytes) : Bytes :=
  if isb64 b then b else b64encode b

/-- Internal signature bytes: the final base64 decode applied to the
normalized text (sig, err := base64.StdEncoding.DecodeString(b64sig)). -/
def internalSig (b : Bytes) : Option Bytes :=
  b64decode (normalizeSig b)

/-! ### LoadPrivateKey (pkg/cosign/sign.go)

The external primitives pem.Decode (Go stdlib), encrypted.Decrypt
(go-tuf) and x509.ParsePKCS8PrivateKey (Go stdlib) are collaborators
outside the repository; they are abstracted as explicit parameters so
that LoadPrivateKey's own control flow is embedded exactly. -/

/-- A decoded PEM block: its type marker and its payload bytes. -/
structure PemBlock where
  ptype : Bytes
  bytes : Bytes
deriving DecidableEq, Repr

/-- Result of x509.ParsePKCS8PrivateKey: which key algorithm was parsed.
The ecdsa payload is an abstract identifier of the parsed EC private key. -/
inductive GoPrivateKey
  | ecdsa (k : Nat)
  | rsa
  | ed25519
  | other
deriving DecidableEq, Repr

/-- External cryptographic primitives used by LoadPrivateKey, abstracted:
pem.Decode (first block or none), encrypted.Decrypt (payload, passphrase),
x509.ParsePKCS8PrivateKey. -/
structure X509Prims where
  pemDecode : Bytes → Option PemBlock
  decrypt : Bytes → Bytes → Except String Bytes
  parsePKCS8 : Bytes → Except String GoPrivateKey

/-- Error outcomes of LoadPrivateKey, one per return site in the source. -/
inductive LoadKeyErr
  | invalidPemBlock
  | unsupportedPemType (t : Bytes)
  | decryptFailed (e : String)
  | parsePrivateKey (e : String)
  | invalidPrivateKey
deriving DecidableEq, Repr

/-- The pemType constant of sign.go. -/
def pemType : Bytes := strBytes "ENCRYPTED COSIGN PRIVATE KEY"

/-- Shallow embedding of LoadPrivateKey from pkg/cosign/sign.go. -/
def LoadPrivateKey (x : X509Prims) (key pass : Bytes) : Except LoadKeyErr Nat :=
  match x.pemDecode key with
  | none => .error .invalidPemBlock
  | some p =>
    if p.ptype ≠ pemType then .error (.unsupportedPemType p.ptype)
    else
      match x.decrypt p.bytes pass with
      | .error e => .error (.decryptFailed e)
      | .ok x509Encoded =>
        match x.parsePKCS8 x509Encoded with
        | .error e => .error (.parsePrivateKey e)
        | .ok pk =>
          match pk with
          | .ecdsa epk => .ok epk
          | _ => .error .invalidPrivateKey

/-- Is the result a DecryptError (the decrypt-stage failure). -/
def isDecryptErr : Except LoadKeyErr Nat → Bool
  | .error (.decryptFailed _) => true
  | _ => false

/-! ### Payload codec

Modelled from the spec: ImagePayload's MarshalJSON (and the matching
decoder) are not under src — only their caller ImageSignature and the
SimpleSigning data model are.  Per the spec (sections 3, 4.2, 8) the
canonical simple-signing document serializes with fixed field order
and the caller-supplied annotation map re-sorted by key, exactly the
byte layout of the literal scenario payload of section 8. -/

/-- Byte-wise lexicographic less-or-equal on byte strings (the order in
which Go's json encoder emits map keys). -/
def bytesLe : Bytes → Bytes → Bool
  | [], _ => true
  | _ :: _, [] => false
  | a :: as, b :: bs => if a < b then true else if a = b then bytesLe as bs else false

theorem bytesLe_total : ∀ x y : Bytes, bytesLe x y = true ∨ bytesLe y x = true := by
  intro x
  induction x with
  | nil => intro y; left; rfl
  | cons a as ih =>
    intro y
    cases y with
    | nil => right; rfl
    | cons b bs =>
      by_cases hab : a < b
      · left; simp [bytesLe, hab]
      · by_cases heq : a = b
        · subst heq
          rcases ih bs with h | h
          · left; simp [bytesLe, h]
          · right; simp [bytesLe, h]
        · right
          have hba : b < a := by omega
          simp [bytesLe, hba]

theorem bytesLe_trans : ∀ x y z : Bytes,
    bytesLe x y = true → bytesLe y z = true → bytesLe x z = true := by
  intro x
  induction x with
  | nil => intro y z _ _; rfl
  | cons a as ih =>
    intro y z hxy hyz
    cases y with
    | nil => simp [bytesLe] at hxy
    | cons b bs =>
      cases z with
      | nil => simp [bytesLe] at hyz
      | cons c cs =>
        simp only [bytesLe] at hxy hyz ⊢
        by_cases hab : a < b
        · by_cases hbc : b < c
          · simp [show a < c by omega]
          · by_cases hbc' : b = c
            · subst hbc'; simp [hab]
            · simp [hab, hbc, hbc'] at hyz
        · by_cases hab' : a = b
          · subst hab'
            simp [hab] at hxy
            by_cases hbc : a < c
            · simp [hbc]
            · by_cases hbc' : a = c
              · subst hbc'
                simp [hbc] at hyz ⊢
                exact ih bs cs hxy hyz
              · simp [hbc, hbc'] at hyz
          · simp [hab, hab'] at hxy

theorem bytesLe_antisymm : ∀ x y : Bytes,
    bytesLe x y = true → bytesLe y x = true → x = y := by
  intro x
  induction x with
  | nil =>
    intro y _ hyx
    cases y with
    | nil => rfl
    | cons b bs => simp [bytesLe] at hyx
  | cons a as ih =>
    intro y hxy hyx
    cases y with
    | nil => simp [bytesLe] at hxy
    | cons b bs =>
      simp only [bytesLe] at hxy hyx
      by_cases hab : a < b
      · simp [hab] at hyx; omega
      · by_cases heq : a = b
        · subst heq
          simp [hab] at hxy hyx
          rw [ih bs hxy hyx]
        · simp [hab, heq] at hxy

/-- A key-value association entry of the annotation map. -/
abbrev KV := Bytes × Bytes

/-- Key order used by the canonical serialization of the annotation map. -/
def annLe (x y : KV) : Prop := bytesLe x.1 y.1 = true

instance : DecidableRel annLe := fun x y =>
  inferInstanceAs (Decidable (bytesLe x.1 y.1 = true))

instance : IsTotal KV annLe := ⟨fun x y => bytesLe_total x.1 y.1⟩

instance : IsTrans KV annLe := ⟨fun x y z => bytesLe_trans x.1 y.1 z.1⟩

/-- Strict version of the key order, used to compare sorted outputs. -/
def annLt (x y : KV) : Prop := annLe x y ∧ x.1 ≠ y.1

instance : IsAntisymm KV annLt :=
  ⟨fun x y hxy hyx => absurd (bytesLe_antisymm x.1 y.1 hxy.1 hyx.1) hxy.2⟩

/-- Canonical order of the annotation map entries: sorted by key. -/
def sortAnnots (l : List KV) : List KV := List.insertionSort annLe l

/-- The caller-supplied entries have pairwise distinct keys (they come
from a Go map). -/
def NodupKeys (l : List KV) : Prop := (l.map Prod.fst).Nodup

instance : DecidablePred NodupKeys := fun l =>
  inferInstanceAs (Decidable (l.map Prod.fst).Nodup)

theorem sortAnnots_perm (l : List KV) : List.Perm (sortAnnots l) l :=
  List.perm_insertionSort annLe l

theorem nodupKeys_of_perm {l₁ l₂ : List KV} (h : List.Perm l₁ l₂) (hn : NodupKeys l₁) :
    NodupKeys l₂ :=
  ((h.map Prod.fst).nodup_iff).mp hn

/-- Sorting is a canonical form: any two permutations of the same
annotation map sort to the same list. -/
theorem sortAnnots_eq_of_perm {l₁ l₂ : List KV} (h : List.Perm l₁ l₂) (hn : NodupKeys l₁) :
    sortAnnots l₁ = sortAnnots l₂ := by
  have hp : List.Perm (sortAnnots l₁) (sortAnnots l₂) :=
    (sortAnnots_perm l₁).trans (h.trans (sortAnnots_perm l₂).symm)
  have hs₁ : List.Sorted annLe (sortAnnots l₁) := List.sorted_insertionSort annLe l₁
  have hs₂ : List.Sorted annLe (sortAnnots l₂) := List.sorted_insertionSort annLe l₂
  have hn₁ : NodupKeys (sortAnnots l₁) := nodupKeys_of_perm (sortAnnots_perm l₁).symm hn
  have hn₂ : NodupKeys (sortAnnots l₂) :=
    nodupKeys_of_perm (h.trans (sortAnnots_perm l₂).symm) hn
  have hne₁ : (sortAnnots l₁).Pairwise (fun x y : KV => x.1 ≠ y.1) := by
    have := hn₁
    rw [NodupKeys, List.Nodup, List.pairwise_map] at this
    exact this
  have hne₂ : (sortAnnots l₂).Pairwise (fun x y : KV => x.1 ≠ y.1) := by
    have := hn₂
    rw [NodupKeys, List.Nodup, List.pairwise_map] at this
    exact this
  have hst₁ : List.Sorted annLt (sortAnnots l₁) := hs₁.and hne₁
  have hst₂ : List.Sorted annLt (sortAnnots l₂) := hs₂.and hne₂
  exact List.eq_of_perm_of_sorted hp hst₁ hst₂

/-- JSON string escaping of the bytes of a string value (quote and
backslash get a backslash; other bytes pass through). -/
def escBytes : Bytes → Bytes
  | [] => []
  | c :: cs => if c = 34 ∨ c = 92 then 92 :: c :: escBytes cs else c :: escBytes cs

/-- Parse a JSON string body up to and including its closing quote,
honouring backslash escapes; returns the unescaped bytes and the rest. -/
def parseStr : Bytes → Option (Bytes × Bytes)
  | [] => none
  | c :: rest =>
    if c = 34 then some ([], rest)
    else if c = 92 then
      match rest with
      | [] => none
      | d :: rest2 =>
        match parseStr rest2 with
        | some (s, r) => some (d :: s, r)
        | none => none
    else
      match parseStr rest with
      | some (s, r) => some (c :: s, r)
      | none => none

theorem parseStr_quote (r : Bytes) : parseStr (34 :: r) = some ([], r) := by
  rw [parseStr.eq_def]; simp

theorem parseStr_backslash (d : Nat) (rest2 : Bytes) :
    parseStr (92 :: d :: rest2) =
      match parseStr rest2 with
      | some (s, r) => some (d :: s, r)
      | none => none := by
  rw [parseStr.eq_def]; simp

theorem parseStr_plain (c : Nat) (rest : Bytes) (h34 : c ≠ 34) (h92 : c ≠ 92) :
    parseStr (c :: rest) =
      match parseStr rest with
      | some (s, r) => some (c :: s, r)
      | none => none := by
  rw [parseStr.eq_def]; simp [h34, h92]

theorem parseStr_esc : ∀ (s r : Bytes), parseStr (escBytes s ++ 34 :: r) = some (s, r) := by
  intro s
  induction s with
  | nil => intro r; simp [escBytes, parseStr_quote]
  | cons c cs ih =>
    intro r
    by_cases h : c = 34 ∨ c = 92
    · simp only [escBytes, if_pos h, List.cons_append]
      rw [parseStr_backslash]
      simp [ih r]
    · obtain ⟨h34, h92⟩ := not_or.mp h
      simp only [escBytes, if_neg h, List.cons_append]
      rw [parseStr_plain c _ h34 h92]
      simp [ih r]

/-- Consume an expected literal byte sequence, returning the rest. -/
def expectLit : Bytes → Bytes → Option Bytes
  | [], s => some s
  | _ :: _, [] => none
  | c :: cs, d :: ds => if c = d then expectLit cs ds else none

theorem expectLit_append : ∀ (l r : Bytes), expectLit l (l ++ r) = some r := by
  intro l
  induction l with
  | nil => intro r; simp [expectLit]
  | cons c cs ih => intro r; simp [expectLit, ih r]

/-- Serialized body of the annotation object, starting after its opening
brace and including its closing brace. -/
def mapBody : List KV → Bytes
  | [] => [125]
  | (k, v) :: rest =>
      34 :: (escBytes k ++ 34 :: 58 :: 34 :: (escBytes v ++ 34 ::
        (match rest with
         | [] => [125]
         | _ :: _ => 44 :: mapBody rest)))

/-- Fuel-indexed parser for the annotation object body (one fuel unit
per key-value pair). -/
def parseMapF : Nat → Bytes → Option (List KV × Bytes)
  | 0, _ => none
  | _ + 1, [] => none
  | fuel + 1, c :: rest =>
    if c = 125 then some ([], rest)
    else if c = 34 then
      match parseStr rest with
      | none => none
      | some (k, r1) =>
        match r1 with
        | 58 :: 34 :: r2 =>
          match parseStr r2 with
          | none => none
          | some (v, r3) =>
            match r3 with
            | 44 :: r4 =>
              match parseMapF fuel r4 with
              | some (ps, r5) => some ((k, v) :: ps, r5)
              | none => none
            | 125 :: r4 => some ([(k, v)], r4)
            | _ => none
        | _ => none
    else none

/-- Parser for the annotation object body (fuel bounded by input size). -/
def parseMap (b : Bytes) : Option (List KV × Bytes) :=
  parseMapF (b.length + 1) b

theorem length_le_length_mapBody : ∀ l : List KV, l.length ≤ (mapBody l).length := by
  intro l
  induction l with
  | nil => simp [mapBody]
  | cons kv t ih =>
    obtain ⟨k, v⟩ := kv
    cases t with
    | nil => simp [mapBody]
    | cons kv2 t2 =>
      simp only [mapBody, List.length_cons, List.length_append] at ih ⊢
      omega

theorem parseMapF_mapBody : ∀ (l : List KV) (r : Bytes) (fuel : Nat),
    l.length < fuel → parseMapF fuel (mapBody l ++ r) = some (l, r) := by
  intro l
  induction l with
  | nil =>
    intro r fuel hf
    cases fuel with
    | zero => omega
    | succ f => simp [mapBody, parseMapF]
  | cons kv t ih =>
    intro r fuel hf
    obtain ⟨k, v⟩ := kv
    cases fuel with
    | zero => omega
    | succ f =>
      cases t with
      | nil =>
        simp [mapBody, parseMapF, List.append_assoc, List.cons_append,
          List.nil_append, parseStr_esc]
      | cons kv2 t2 =>
        have ih' : parseMapF f (mapBody (kv2 :: t2) ++ r) = some (kv2 :: t2, r) := by
          apply ih
          simp at hf ⊢
          omega
        rw [show mapBody ((k, v) :: kv2 :: t2) =
              34 :: (escBytes k ++ 34 :: 58 :: 34 ::
                (escBytes v ++ 34 :: (44 :: mapBody (kv2 :: t2)))) from by
            rw [mapBody.eq_def]]
        generalize mapBody (kv2 :: t2) = m at ih' ⊢
        simp [parseMapF, parseStr_esc, List.append_assoc, List.cons_append, ih']

theorem parseMap_mapBody (l : List KV) (r : Bytes) :
    parseMap (mapBody l ++ r) = some (l, r) := by
  have h := length_le_length_mapBody l
  apply parseMapF_mapBody
  simp [List.length_append]
  omega

/-! ### The canonical signable payload -/

/-- The artifact identity covered by the payload: logical reference and
manifest digest (the relevant projection of v1.Descriptor). -/
structure Descriptor where
  reference : Bytes
  digest : Bytes
deriving DecidableEq, Repr

/-- The signable ImagePayload: artifact descriptor plus the
caller-supplied annotation map entries. -/
structure ImagePayload where
  Img : Descriptor
  Annotations : List KV
deriving DecidableEq, Repr

/-- Literal head of the canonical document, through the opening quote of
the docker-reference value. -/
def jlit1 : Bytes := strBytes "\x7b\"critical\":\x7b\"identity\":\x7b\"docker-reference\":\""

/-- Literal between the reference value and the digest value. -/
def jlit2 : Bytes := strBytes "\x7d,\"image\":\x7b\"Docker-manifest-digest\":\""

/-- Literal between the digest value and the annotation object: closes
critical, emits the fixed type string, opens optional. -/
def jlit3 : Bytes := strBytes "\x7d\x7d,\"type\":\"cosign container signature\",\"optional\":\x7b"

/-- Canonical serialization of the payload: fixed field order, fixed
type string, annotation map entries sorted by key. -/
def encodePayload (p : ImagePayload) : Bytes :=
  jlit1 ++ (escBytes p.Img.reference ++ 34 ::
    (jlit2 ++ (escBytes p.Img.digest ++ 34 ::
      (jlit3 ++ (mapBody (sortAnnots p.Annotations) ++ [125])))))

/-- Parse a canonical payload document; any schema mismatch fails. -/
def decodePayload (b : Bytes) : Option ImagePayload :=
  match expectLit jlit1 b with
  | none => none
  | some r1 =>
    match parseStr r1 with
    | none => none
    | some (ref, r2) =>
      match expectLit jlit2 r2 with
      | none => none
      | some r3 =>
        match parseStr r3 with
        | none => none
        | some (dig, r4) =>
          match expectLit jlit3 r4 with
          | none => none
          | some r5 =>
            match parseMap r5 with
            | none => none
            | some (anns, r6) =>
              match r6 with
              | [125] => some ⟨⟨ref, dig⟩, anns⟩
              | _ => none

theorem decodePayload_encodePayload (p : ImagePayload) :
    decodePayload (encodePayload p) = some ⟨p.Img, sortAnnots p.Annotations⟩ := by
  simp [decodePayload, encodePayload, expectLit_append, parseStr_esc, parseMap_mapBody]

/-! ### Signing (pkg/cosign/sign.go) -/

/-- The Signer interface of sign.go: Sign(ctx, payload) (the context
carries only cancellation and is omitted from the pure embedding). -/
def Signer : Type := Bytes → Except String Bytes

/-- Shallow embedding of PayloadSignature from sign.go. -/
def PayloadSignature (signer : Signer) (payload : Bytes) : Except String Bytes :=
  match signer payload with
  | .error e => .error ("failed to create signature: " ++ e)
  | .ok s => .ok s

/-- Modelled from the spec: ImagePayload's MarshalJSON is not under src;
it emits the canonical serialization (total here, since Lean strings
cannot fail UTF-8 encoding). -/
def MarshalJSON (p : ImagePayload) : Except String Bytes :=
  .ok (encodePayload p)

/-- Shallow embedding of ImageSignature from sign.go. -/
def ImageSignature (signer : Signer) (img : Descriptor)
    (payloadAnnotations : List KV) : Except String (Bytes × Bytes) :=
  match MarshalJSON ⟨img, payloadAnnotations⟩ with
  | .error e => .error ("failed to create image signature payload: " ++ e)
  | .ok payload =>
    match PayloadSignature signer payload with
    | .error e => .error e
    | .ok s => .ok (payload, s)

/-! ### VerifyBlobCmd (cli verify-blob)

Shallow embedding of the verification command.  Collaborator calls
(file system, KMS, rekor log, the key's Verify method, LoadCerts,
TrustedCert) live in a `World`; the command's own control flow is
translated statement by statement, and every collaborator call emits
an event so that claims about I/O and ordering are statable. -/

/-- Collaborator-call events of a run, in execution order. -/
inductive Ev
  | ioLoadPublicKey (ref : Bytes)
  | ioKmsGet (ref : Bytes)
  | ioReadFile (path : Bytes)
  | ioStat (path : Bytes)
  | ioReadStdin
  | ioGetRekorClient
  | ioFindTlog
  | opVerify
  | opTrustedCert
deriving DecidableEq, Repr

/-- Whether an event is file or network I/O (signature verification and
local chain validation are pure computation). -/
def Ev.isIoEvent : Ev → Bool
  | .opVerify => false
  | .opTrustedCert => false
  | _ => true

/-- Errors returned by VerifyBlobCmd, one constructor per return site. -/
inductive CosignError
  | configNone
  | loadPublicKeyErr (e : String)
  | kmsGetErr (e : String)
  | readFileErr (e : String)
  | loadCertsErr (e : String)
  | noCertsFound
  | statOtherErr (e : String)
  | base64DecodeErr
  | verifyFailed (e : String)
  | trustedCertErr (e : String)
  | getRekorClientErr (e : String)
  | publicKeyPemErr (e : String)
  | findTlogErr (e : String)
deriving DecidableEq, Repr

/-- Result of a run: normal return, error return, or a Go panic. -/
inductive Outcome
  | ok
  | error (e : CosignError)
  | panicked
deriving DecidableEq, Repr

/-- The algorithm of an x509 certificate's subject public key. -/
inductive CertPublicKey
  | ec (k : Nat)
  | rsa
  | ed25519
  | dsa
deriving DecidableEq, Repr

/-- An x509 certificate: its public key and subject common name. -/
structure Cert where
  publicKey : CertPublicKey
  subjectCommonName : String
deriving DecidableEq, Repr

/-- A cosign.PublicKey value: either a key resolved by LoadPublicKey or
kms.Get, or the ECDSAPublicKey wrapper built around a certificate's key. -/
inductive PublicKey
  | resolved (id : Nat)
  | ecdsaKey (k : Nat)
deriving DecidableEq, Repr

/-- Result of os.Stat on a path. -/
inductive StatResult
  | found
  | notExist
  | otherErr (e : String)
deriving DecidableEq, Repr

/-- The external collaborators of VerifyBlobCmd. -/
structure World where
  loadPublicKey : Bytes → Except String PublicKey
  kmsGet : Bytes → Except String PublicKey
  readFile : Bytes → Except String Bytes
  clean : Bytes → Bytes
  stat : Bytes → StatResult
  stdin : Except String Bytes
  loadCerts : Bytes → Except String (List Cert)
  verify : PublicKey → Bytes → Bytes → Except String Unit
  trustedCert : Cert → Except String Unit
  experimental : Bool
  getRekorClient : Except String Nat
  publicKeyPem : PublicKey → Except String Bytes
  certToPem : Cert → Bytes
  findTlogEntry : Nat → Bytes → Bytes → Bytes → Except String Nat

/-- Result of the mode-selection switch at the top of VerifyBlobCmd. -/
inductive KeyRes
  | ok (pk : PublicKey) (c : Option Cert)
  | err (e : CosignError)
  | panicked
deriving DecidableEq, Repr

/-- The switch over keyRef / kmsVal / certRef at the top of VerifyBlobCmd.
Go's switch takes the first case whose guard holds; the certificate branch
reads and parses the bundle, takes the first certificate as the leaf, and
performs the unchecked type assertion cert.PublicKey.(*ecdsa.PublicKey),
which panics when the leaf key is not ECDSA. -/
def resolveKey (w : World) (keyRef kmsVal certRef : Bytes) : KeyRes × List Ev :=
  if keyRef ≠ [] then
    match w.loadPublicKey keyRef with
    | .ok pk => (.ok pk none, [.ioLoadPublicKey keyRef])
    | .error e => (.err (.loadPublicKeyErr e), [.ioLoadPublicKey keyRef])
  else if kmsVal ≠ [] then
    match w.kmsGet kmsVal with
    | .ok pk => (.ok pk none, [.ioKmsGet kmsVal])
    | .error e => (.err (.kmsGetErr e), [.ioKmsGet kmsVal])
  else if certRef ≠ [] then
    match w.readFile certRef with
    | .error e => (.err (.readFileErr e), [.ioReadFile certRef])
    | .ok pems =>
      match w.loadCerts pems with
      | .error e => (.err (.loadCertsErr e), [.ioReadFile certRef])
      | .ok certs =>
        match certs with
        | [] => (.err .noCertsFound, [.ioReadFile certRef])
        | c :: _ =>
          match c.publicKey with
          | .ec k => (.ok (.ecdsaKey k) (some c), [.ioReadFile certRef])
          | _ => (.panicked, [.ioReadFile certRef])
  else (.err .configNone, [])

/-- The signature-argument resolution of VerifyBlobCmd: stat the argument;
when the path does not exist the argument itself is the base64 text; when
it exists read the (cleaned) path and normalize; any other stat failure is
returned as an error. -/
def resolveSig (w : World) (sigRef : Bytes) : Except CosignError Bytes × List Ev :=
  match w.stat sigRef with
  | .notExist => (.ok sigRef, [.ioStat sigRef])
  | .otherErr e => (.error (.statOtherErr e), [.ioStat sigRef])
  | .found =>
    match w.readFile (w.clean sigRef) with
    | .error e => (.error (.readFileErr e), [.ioStat sigRef, .ioReadFile (w.clean sigRef)])
    | .ok b => (.ok (normalizeSig b), [.ioStat sigRef, .ioReadFile (w.clean sigRef)])

/-- Blob reading: "-" means standard input, else read the cleaned path. -/
def readBlob (w : World) (blobRef : Bytes) : Except CosignError Bytes × List Ev :=
  if blobRef = [45] then
    match w.stdin with
    | .error e => (.error (.readFileErr e), [.ioReadStdin])
    | .ok b => (.ok b, [.ioReadStdin])
  else
    match w.readFile (w.clean blobRef) with
    | .error e => (.error (.readFileErr e), [.ioReadFile (w.clean blobRef)])
    | .ok b => (.ok b, [.ioReadFile (w.clean blobRef)])

/-- The trust-chain block: runs exactly when a certificate was selected. -/
def certCheck (w : World) (c : Option Cert) : Except CosignError Unit × List Ev :=
  match c with
  | none => (.ok (), [])
  | some cert =>
    match w.trustedCert cert with
    | .error e => (.error (.trustedCertErr e), [.opTrustedCert])
    | .ok _ => (.ok (), [.opTrustedCert])

/-- The transparency-log block: runs exactly when experimental mode is on;
the public key bytes come from the certificate when one was used, else
from PublicKeyPem (which the source computes first in either case). -/
def certOrKeyPem (w : World) (c : Option Cert) (pkPem : Bytes) : Bytes :=
  match c with
  | some cert => w.certToPem cert
  | none => pkPem

def tlogCheck (w : World) (pk : PublicKey) (c : Option Cert)
    (b64sig blobBytes : Bytes) : Except CosignError Unit × List Ev :=
  if w.experimental then
    match w.getRekorClient with
    | .error e => (.error (.getRekorClientErr e), [.ioGetRekorClient])
    | .ok rc =>
      match w.publicKeyPem pk with
      | .error e => (.error (.publicKeyPemErr e), [.ioGetRekorClient])
      | .ok pkPem =>
        match w.findTlogEntry rc b64sig blobBytes (certOrKeyPem w c pkPem) with
        | .error e => (.error (.findTlogErr e), [.ioGetRekorClient, .ioFindTlog])
        | .ok _index => (.ok (), [.ioGetRekorClient, .ioFindTlog])
  else (.ok (), [])

/-- Shallow embedding of VerifyBlobCmd: mode selection, signature
resolution, blob read, base64 decode, Verify, trust chain (certificate
mode only), transparency check (experimental only); early return on the
first failure, with the trace of collaborator calls made so far. -/
def VerifyBlobCmd (w : World) (keyRef kmsVal certRef sigRef blobRef : Bytes) :
    Outcome × List Ev :=
  match resolveKey w keyRef kmsVal certRef with
  | (.err e, t1) => (.error e, t1)
  | (.panicked, t1) => (.panicked, t1)
  | (.ok pk certOpt, t1) =>
    match resolveSig w sigRef with
    | (.error e, t2) => (.error e, t1 ++ t2)
    | (.ok b64sig, t2) =>
      match readBlob w blobRef with
      | (.error e, t3) => (.error e, t1 ++ t2 ++ t3)
      | (.ok blobBytes, t3) =>
        match b64decode b64sig with
        | none => (.error .base64DecodeErr, t1 ++ t2 ++ t3)
        | some sig =>
          match w.verify pk blobBytes sig with
          | .error e => (.error (.verifyFailed e), t1 ++ t2 ++ t3 ++ [.opVerify])
          | .ok _ =>
            match certCheck w certOpt with
            | (.error e, t5) => (.error e, t1 ++ t2 ++ t3 ++ [.opVerify] ++ t5)
            | (.ok _, t5) =>
              match tlogCheck w pk certOpt b64sig blobBytes with
              | (.error e, t6) =>
                  (.error e, t1 ++ t2 ++ t3 ++ [.opVerify] ++ t5 ++ t6)
              | (.ok _, t6) => (.ok, t1 ++ t2 ++ t3 ++ [.opVerify] ++ t5 ++ t6)

/-! ### Trace anatomy lemmas -/

theorem resolveKey_events {w : World} {k m c : Bytes} {e : Ev}
    (he : e ∈ (resolveKey w k m c).2) :
    e = .ioLoadPublicKey k ∨ e = .ioKmsGet m ∨ e = .ioReadFile c := by
  unfold resolveKey at he
  repeat' split at he
  all_goals simp_all

theorem resolveSig_events {w : World} {s : Bytes} {e : Ev}
    (he : e ∈ (resolveSig w s).2) :
    e = .ioStat s ∨ e = .ioReadFile (w.clean s) := by
  unfold resolveSig at he
  repeat' split at he
  all_goals simp_all

theorem readBlob_events {w : World} {b : Bytes} {e : Ev}
    (he : e ∈ (readBlob w b).2) :
    e = .ioReadStdin ∨ e = .ioReadFile (w.clean b) := by
  unfold readBlob at he
  repeat' split at he
  all_goals simp_all

theorem certCheck_events {w : World} {c : Option Cert} {e : Ev}
    (he : e ∈ (certCheck w c).2) : e = .opTrustedCert := by
  unfold certCheck at he
  repeat' split at he
  all_goals simp_all

theorem certCheck_mem_some {w : World} {c : Option Cert}
    (he : Ev.opTrustedCert ∈ (certCheck w c).2) : ∃ cc, c = some cc := by
  unfold certCheck at he
  repeat' split at he
  all_goals simp_all

theorem tlogCheck_events {w : World} {pk : PublicKey} {c : Option Cert}
    {s b : Bytes} {e : Ev} (he : e ∈ (tlogCheck w pk c s b).2) :
    e = .ioGetRekorClient ∨ e = .ioFindTlog := by
  unfold tlogCheck at he
  repeat' split at he
  all_goals simp_all

theorem tlogCheck_not_experimental {w : World} (hx : w.experimental = false)
    (pk : PublicKey) (c : Option Cert) (s b : Bytes) :
    tlogCheck w pk c s b = (.ok (), []) := by
  simp [tlogCheck, hx]

theorem resolveKey_cert_mode {w : World} {k m c : Bytes} {pk : PublicKey}
    {cert : Cert} (h : (resolveKey w k m c).1 = .ok pk (some cert)) :
    k = [] ∧ m = [] ∧ c ≠ [] := by
  unfold resolveKey at h
  repeat' split at h
  all_goals simp_all

theorem resolveSig_events' {w : World} {s : Bytes} {rs : Except CosignError Bytes}
    {t2 : List Ev} (h : resolveSig w s = (rs, t2)) :
    ∀ e ∈ t2, e = Ev.ioStat s ∨ e = Ev.ioReadFile (w.clean s) :=
  fun _ he => resolveSig_events (by rw [h]; exact he)

theorem readBlob_events' {w : World} {b : Bytes} {rb : Except CosignError Bytes}
    {t3 : List Ev} (h : readBlob w b = (rb, t3)) :
    ∀ e ∈ t3, e = Ev.ioReadStdin ∨ e = Ev.ioReadFile (w.clean b) :=
  fun _ he => readBlob_events (by rw [h]; exact he)

theorem tlogCheck_events' {w : World} {pk : PublicKey} {c : Option Cert}
    {s b : Bytes} {rt : Except CosignError Unit} {t6 : List Ev}
    (h : tlogCheck w pk c s b = (rt, t6)) :
    ∀ e ∈ t6, e = Ev.ioGetRekorClient ∨ e = Ev.ioFindTlog :=
  fun _ he => tlogCheck_events (by rw [h]; exact he)

theorem tlogCheck_ne_nil_experimental {w : World} {pk : PublicKey} {c : Option Cert}
    {s b : Bytes} {rt : Except CosignError Unit} {t6 : List Ev}
    (h : tlogCheck w pk c s b = (rt, t6)) (hne : t6 ≠ []) :
    w.experimental = true := by
  cases hx : w.experimental
  · rw [tlogCheck_not_experimental hx] at h
    injection h with h1 h2
    exact absurd h2.symm hne
  · rfl

theorem certCheck_shape {w : World} {co : Option Cert}
    {rc : Except CosignError Unit} {t5 : List Ev} (h : certCheck w co = (rc, t5)) :
    t5 = [] ∨ (t5 = [Ev.opTrustedCert] ∧ ∃ cc, co = some cc) := by
  cases co with
  | none =>
    left
    have hc : certCheck w none = (Except.ok (), ([] : List Ev)) := rfl
    rw [hc] at h
    injection h with h1 h2
    exact h2.symm
  | some cert =>
    right
    refine ⟨?_, cert, rfl⟩
    cases htc : w.trustedCert cert with
    | error e =>
      have hc : certCheck w (some cert) =
          (Except.error (CosignError.trustedCertErr e), [Ev.opTrustedCert]) := by
        simp [certCheck, htc]
      rw [hc] at h
      injection h with h1 h2
      exact h2.symm
    | ok u =>
      have hc : certCheck w (some cert) = (Except.ok (), [Ev.opTrustedCert]) := by
        simp [certCheck, htc]
      rw [hc] at h
      injection h with h1 h2
      exact h2.symm

/-- Anatomy of a VerifyBlobCmd run: its trace is the mode-selection trace
followed by signature-resolution, blob-read, Verify, trust-chain and
transparency segments, with each segment's possible events and run
conditions characterized. -/
theorem VerifyBlobCmd_shape (w : World) (k m c s b : Bytes) :
    ∃ t2 t3 t4 t5 t6,
      (VerifyBlobCmd w k m c s b).2
        = (resolveKey w k m c).2 ++ (t2 ++ (t3 ++ (t4 ++ (t5 ++ t6))))
      ∧ (∀ e ∈ t2, e = Ev.ioStat s ∨ e = Ev.ioReadFile (w.clean s))
      ∧ (∀ e ∈ t3, e = Ev.ioReadStdin ∨ e = Ev.ioReadFile (w.clean b))
      ∧ (t4 = [] ∨ t4 = [Ev.opVerify])
      ∧ (t5 = [] ∨ (t5 = [Ev.opTrustedCert] ∧ t4 = [Ev.opVerify] ∧
           ∃ pk cert, (resolveKey w k m c).1 = KeyRes.ok pk (some cert)))
      ∧ (∀ e ∈ t6, e = Ev.ioGetRekorClient ∨ e = Ev.ioFindTlog)
      ∧ (t6 ≠ [] → w.experimental = true)
      ∧ (∀ er, (VerifyBlobCmd w k m c s b).1 = Outcome.error (.verifyFailed er) →
           t5 = [] ∧ t6 = []) := by
  rcases hRK : resolveKey w k m c with ⟨rk, t1⟩
  cases rk with
  | err e =>
    exact ⟨[], [], [], [], [], by simp [VerifyBlobCmd, hRK], by simp, by simp,
      Or.inl rfl, Or.inl rfl, by simp, by simp, fun er _ => ⟨rfl, rfl⟩⟩
  | panicked =>
    exact ⟨[], [], [], [], [], by simp [VerifyBlobCmd, hRK], by simp, by simp,
      Or.inl rfl, Or.inl rfl, by simp, by simp, fun er _ => ⟨rfl, rfl⟩⟩
  | ok pk certOpt =>
    rcases hRS : resolveSig w s with ⟨rs, t2⟩
    cases rs with
    | error e =>
      exact ⟨t2, [], [], [], [], by simp [VerifyBlobCmd, hRK, hRS],
        resolveSig_events' hRS, by simp, Or.inl rfl, Or.inl rfl, by simp, by simp,
        fun er _ => ⟨rfl, rfl⟩⟩
    | ok b64sig =>
      rcases hRB : readBlob w b with ⟨rb, t3⟩
      cases rb with
      | error e =>
        exact ⟨t2, t3, [], [], [], by simp [VerifyBlobCmd, hRK, hRS, hRB],
          resolveSig_events' hRS, readBlob_events' hRB, Or.inl rfl, Or.inl rfl,
          by simp, by simp, fun er _ => ⟨rfl, rfl⟩⟩
      | ok blobBytes =>
        cases hDec : b64decode b64sig with
        | none =>
          exact ⟨t2, t3, [], [], [], by simp [VerifyBlobCmd, hRK, hRS, hRB, hDec],
            resolveSig_events' hRS, readBlob_events' hRB, Or.inl rfl, Or.inl rfl,
            by simp, by simp, fun er _ => ⟨rfl, rfl⟩⟩
        | some sig =>
          cases hV : w.verify pk blobBytes sig with
          | error e =>
            exact ⟨t2, t3, [Ev.opVerify], [], [],
              by simp [VerifyBlobCmd, hRK, hRS, hRB, hDec, hV],
              resolveSig_events' hRS, readBlob_events' hRB, Or.inr rfl, Or.inl rfl,
              by simp, by simp, fun er _ => ⟨rfl, rfl⟩⟩
          | ok u =>
            rcases hCC : certCheck w certOpt with ⟨rc, t5⟩
            have ht5 : t5 = [] ∨ (t5 = [Ev.opTrustedCert] ∧
                ([Ev.opVerify] : List Ev) = [Ev.opVerify] ∧
                ∃ pk' cert, ((KeyRes.ok pk certOpt, t1) : KeyRes × List Ev).1
                  = KeyRes.ok pk' (some cert)) := by
              rcases certCheck_shape hCC with h | ⟨h5, cc, hcc⟩
              · exact Or.inl h
              · exact Or.inr ⟨h5, rfl, pk, cc, by simp [hcc]⟩
            cases rc with
            | error e =>
              refine ⟨t2, t3, [Ev.opVerify], t5, [],
                by simp [VerifyBlobCmd, hRK, hRS, hRB, hDec, hV, hCC],
                resolveSig_events' hRS, readBlob_events' hRB, Or.inr rfl, ht5,
                by simp, by simp, fun er her => ?_⟩
              have hout : (VerifyBlobCmd w k m c s b).1 = Outcome.error e := by
                simp [VerifyBlobCmd, hRK, hRS, hRB, hDec, hV, hCC]
              rw [hout] at her
              have he' : e = CosignError.verifyFailed er := by injection her
              subst he'
              exfalso
              cases htc : certOpt with
              | none => rw [htc] at hCC; simp [certCheck] at hCC
              | some cert =>
                rw [htc] at hCC
                cases htr : w.trustedCert cert <;> simp [certCheck, htr] at hCC
            | ok v =>
              rcases hTC : tlogCheck w pk certOpt b64sig blobBytes with ⟨rt, t6⟩
              cases rt with
              | error e =>
                refine ⟨t2, t3, [Ev.opVerify], t5, t6,
                  by simp [VerifyBlobCmd, hRK, hRS, hRB, hDec, hV, hCC, hTC],
                  resolveSig_events' hRS, readBlob_events' hRB, Or.inr rfl, ht5,
                  tlogCheck_events' hTC, tlogCheck_ne_nil_experimental hTC,
                  fun er her => ?_⟩
                have hout : (VerifyBlobCmd w k m c s b).1 = Outcome.error e := by
                  simp [VerifyBlobCmd, hRK, hRS, hRB, hDec, hV, hCC, hTC]
                rw [hout] at her
                have he' : e = CosignError.verifyFailed er := by injection her
                subst he'
                exfalso
                unfold tlogCheck at hTC
                repeat' split at hTC
                all_goals simp_all
              | ok v2 =>
                refine ⟨t2, t3, [Ev.opVerify], t5, t6,
                  by simp [VerifyBlobCmd, hRK, hRS, hRB, hDec, hV, hCC, hTC],
                  resolveSig_events' hRS, readBlob_events' hRB, Or.inr rfl, ht5,
                  tlogCheck_events' hTC, tlogCheck_ne_nil_experimental hTC,
                  fun er her => ?_⟩
                have hout : (VerifyBlobCmd w k m c s b).1 = Outcome.ok := by
                  simp [VerifyBlobCmd, hRK, hRS, hRB, hDec, hV, hCC, hTC]
                rw [hout] at her
                cases her

/-! ### Concrete fixtures for witnesses and counterexamples -/

/-- Baseline world: every collaborator fails, stat reports not-exist,
transparency disabled, filepath.Clean is the identity. -/
def w0 : World where
  loadPublicKey := fun _ => .error "no such file"
  kmsGet := fun _ => .error "unreachable"
  readFile := fun _ => .error "no such file"
  clean := id
  stat := fun _ => .notExist
  stdin := .ok []
  loadCerts := fun _ => .error "bad pem"
  verify := fun _ _ _ => .error "invalid signature"
  trustedCert := fun _ => .error "untrusted"
  experimental := false
  getRekorClient := .error "offline"
  publicKeyPem := fun _ => .ok []
  certToPem := fun _ => []
  findTlogEntry := fun _ _ _ _ => .error "not found"

/-- A certificate whose subject public key is RSA (not elliptic-curve). -/
def certRSA : Cert := ⟨.rsa, "alice@example.com"⟩

/-- A certificate with an elliptic-curve subject public key. -/
def certEC : Cert := ⟨.ec 7, "alice@example.com"⟩

/-- World where the certificate bundle parses to a single RSA leaf. -/
def w1 : World :=
  { w0 with readFile := fun _ => .ok [80], loadCerts := fun _ => .ok [certRSA] }

/-- World for a successful certificate-mode run: EC leaf, verification
and trust check pass, transparency disabled. -/
def w2 : World :=
  { w0 with
    readFile := fun _ => .ok [10]
    loadCerts := fun _ => .ok [certEC]
    verify := fun _ _ _ => .ok ()
    trustedCert := fun _ => .ok () }

/-- World where the certificate bundle contains no certificate. -/
def w3 : World :=
  { w0 with readFile := fun _ => .ok [80], loadCerts := fun _ => .ok [] }

/-- The bytes of the base64 text "YWJjZA==" (encoding of "abcd"). -/
def sigB : Bytes := [89, 87, 74, 106, 90, 65, 61, 61]

/-- Primitives where PEM decoding finds no block and decryption always
fails: pem.Decode returns nil on input that contains no PEM block (in
particular on empty input). -/
def x0 : X509Prims where
  pemDecode := fun _ => none
  decrypt := fun _ _ => .error "decryption failed"
  parsePKCS8 := fun _ => .error "asn1 error"

/-- Primitives where the PEM block decodes with the expected marker but
the supplied passphrase is wrong (decryption always fails). -/
def x1 : X509Prims where
  pemDecode := fun _ => some ⟨pemType, [1]⟩
  decrypt := fun _ _ => .error "x509: decryption password incorrect"
  parsePKCS8 := fun _ => .error "asn1 error"

/-- A payload whose annotation entries are supplied in non-sorted order. -/
def p0 : ImagePayload :=
  ⟨⟨strBytes "example/repo", strBytes "sha256:abc"⟩,
   [(strBytes "b", strBytes "1"), (strBytes "a", strBytes "2")]⟩

/-- The same logical payload as p0 with the entries in the other order. -/
def q0 : ImagePayload :=
  ⟨⟨strBytes "example/repo", strBytes "sha256:abc"⟩,
   [(strBytes "a", strBytes "2"), (strBytes "b", strBytes "1")]⟩

/-- A signer that always succeeds with a fixed signature. -/
def sOK : Signer := fun _ => .ok [9]

/-- A descriptor fixture. -/
def img0 : Descriptor := ⟨strBytes "example/repo", strBytes "sha256:abc"⟩

/-! ### Claim theorems -/

/-- C1 counterexample: with both a key path and a KMS reference given,
VerifyBlobCmd does not fail with the ConfigError; it takes the key
branch and attempts the key-file read (an I/O operation), refuting the
claim that such an invocation yields an immediate ConfigError with no
file or network access. -/
theorem C1_counterexample :
    VerifyBlobCmd w0 [107] [109] [] [115] [98]
      = (.error (.loadPublicKeyErr "no such file"), [.ioLoadPublicKey [107]])
    ∧ (Ev.ioLoadPublicKey [107]).isIoEvent = true
    ∧ (Outcome.error (.loadPublicKeyErr "no such file") ≠ Outcome.error .configNone) := by
  refine ⟨rfl, rfl, by decide⟩

/-- C1 (amended): when none of key, KMS and certificate is specified the
command fails with the config error before any I/O (the trace is empty);
when more than one is specified there is no error: the first of
key > KMS > certificate silently takes precedence and the others are
ignored. -/
theorem C1_amended (w : World) (keyRef kmsVal certRef sigRef blobRef : Bytes) :
    (keyRef = [] → kmsVal = [] → certRef = [] →
       VerifyBlobCmd w keyRef kmsVal certRef sigRef blobRef
         = (.error .configNone, []))
    ∧ (keyRef ≠ [] →
       resolveKey w keyRef kmsVal certRef = resolveKey w keyRef [] [])
    ∧ (keyRef = [] → kmsVal ≠ [] →
       resolveKey w keyRef kmsVal certRef = resolveKey w keyRef kmsVal []) := by
  refine ⟨?_, ?_, ?_⟩
  · intro h1 h2 h3
    subst h1 h2 h3
    simp [VerifyBlobCmd, resolveKey]
  · intro h
    simp [resolveKey, h]
  · intro h1 h2
    subst h1
    simp [resolveKey, h2]

/-- C1 witness: the no-selector invocation at a concrete world. -/
theorem C1_witness :
    VerifyBlobCmd w0 [] [] [] [115] [98] = (.error .configNone, []) :=
  (C1_amended w0 [] [] [] [115] [98]).1 rfl rfl rfl

/-- C2 counterexample: for s = "abcd" (raw bytes that are themselves
valid base64), the encoded route yields the internal bytes s but the raw
route yields the base64 decode of s, so the two routes disagree. -/
theorem C2_counterexample :
    internalSig (b64encode [97, 98, 99, 100]) = some [97, 98, 99, 100]
    ∧ internalSig [97, 98, 99, 100] = some [105, 183, 29]
    ∧ internalSig (b64encode [97, 98, 99, 100]) ≠ internalSig [97, 98, 99, 100] := by
  decide

/-- C2 (amended): whenever the raw signature bytes are not themselves
valid base64 (the conservative case the spec's heuristic assumes), both
routes through the normalization step produce identical internal
signature bytes, and both yield s after the final base64 decode. -/
theorem C2_amended (s : Bytes) (hs : ValidBytes s) (hraw : isb64 s = false) :
    internalSig (b64encode s) = some s ∧ internalSig s = some s := by
  constructor
  · unfold internalSig normalizeSig
    rw [if_pos (isb64_b64encode s hs), b64decode_b64encode s hs]
  · unfold internalSig normalizeSig
    rw [if_neg (by simp [hraw]), b64decode_b64encode s hs]

/-- C2 witness: the NUL byte is not valid base64; both routes yield it. -/
theorem C2_witness :
    internalSig (b64encode [0]) = some [0] ∧ internalSig [0] = some [0] :=
  C2_amended [0] (by decide) (by decide)

/-- C3 counterexample: an input with no PEM block (for example empty
bytes) under a decryption that fails for every passphrase ("wrong
passphrase for every input") is rejected with the invalid-PEM format
error, not with the DecryptError the claim requires for every input. -/
theorem C3_counterexample :
    LoadPrivateKey x0 [] [] = .error .invalidPemBlock
    ∧ isDecryptErr (LoadPrivateKey x0 [] []) = false := by
  exact ⟨rfl, rfl⟩

/-- C3 (amended): LoadPrivateKey returns a key only when the input PEM
decodes with the ENCRYPTED COSIGN PRIVATE KEY marker, decryption with
the supplied passphrase succeeds, and the decrypted PKCS8 bytes parse to
an ECDSA private key; when the PEM block is well-formed and decryption
fails (wrong passphrase) the result is exactly the DecryptError; and a
passphrase under which decryption fails never yields a key, for any
input. -/
theorem C3_amended (x : X509Prims) (key pass : Bytes) :
    (∀ k, LoadPrivateKey x key pass = .ok k →
       ∃ p d, x.pemDecode key = some p ∧ p.ptype = pemType ∧
         x.decrypt p.bytes pass = .ok d ∧ x.parsePKCS8 d = .ok (.ecdsa k))
    ∧ (∀ p, x.pemDecode key = some p → p.ptype = pemType →
        (∀ d, x.decrypt p.bytes pass ≠ .ok d) →
        ∃ e, LoadPrivateKey x key pass = .error (.decryptFailed e))
    ∧ ((∀ c d, x.decrypt c pass ≠ .ok d) →
        ∀ k, LoadPrivateKey x key pass ≠ .ok k) := by
  have h1 : ∀ k, LoadPrivateKey x key pass = .ok k →
      ∃ p d, x.pemDecode key = some p ∧ p.ptype = pemType ∧
        x.decrypt p.bytes pass = .ok d ∧ x.parsePKCS8 d = .ok (.ecdsa k) := by
    intro k hk
    unfold LoadPrivateKey at hk
    repeat' split at hk
    all_goals simp_all
  refine ⟨h1, ?_, ?_⟩
  · intro p hp htype hdec
    cases hd : x.decrypt p.bytes pass with
    | error e =>
      refine ⟨e, ?_⟩
      unfold LoadPrivateKey
      rw [hp]
      simp [htype, hd]
    | ok d => exact absurd hd (hdec d)
  · intro hdec k hk
    obtain ⟨p, d, _, _, hd, _⟩ := h1 k hk
    exact hdec p.bytes d hd

/-- C3 witness: a well-formed encrypted PEM with a wrong passphrase
fails with the DecryptError. -/
theorem C3_witness :
    ∃ e, LoadPrivateKey x1 [5] [7] = .error (.decryptFailed e) :=
  (C3_amended x1 [5] [7]).2.1 ⟨pemType, [1]⟩ rfl rfl
    (fun _ h => Except.noConfusion h)

/-- C4: in certificate mode a bundle whose leaf carries a non-EC public
key makes VerifyBlobCmd panic (the unchecked Go type assertion
cert.PublicKey.(*ecdsa.PublicKey)), a crash rather than the ordinary
TypeError the claim requires. -/
theorem C4_panic (w : World) (certRef sigRef blobRef pems : Bytes) (c : Cert)
    (cs : List Cert) (hc : certRef ≠ []) (hrf : w.readFile certRef = .ok pems)
    (hlc : w.loadCerts pems = .ok (c :: cs)) (hec : ∀ k, c.publicKey ≠ .ec k) :
    (VerifyBlobCmd w [] [] certRef sigRef blobRef).1 = .panicked := by
  cases hpk : c.publicKey with
  | ec k => exact absurd hpk (hec k)
  | rsa => simp [VerifyBlobCmd, resolveKey, hc, hrf, hlc, hpk]
  | ed25519 => simp [VerifyBlobCmd, resolveKey, hc, hrf, hlc, hpk]
  | dsa => simp [VerifyBlobCmd, resolveKey, hc, hrf, hlc, hpk]

/-- C4 witness: a concrete RSA-leaf bundle makes the run panic. -/
theorem C4_witness :
    (VerifyBlobCmd w1 [] [] [99] [115] [98]).1 = .panicked :=
  C4_panic w1 [99] [115] [98] [80] certRSA [] (by decide) rfl rfl
    (fun k h => by simp [certRSA] at h)

/-- C5: in every run the Verify step precedes the trust-chain check (a
trust-chain event only occurs after an earlier Verify event), a negative
Verify result is terminal (no trust-chain and no transparency-log
activity occurs in such a run), and the trust-chain check runs only when
certificate mode was selected. -/
theorem C5_verify_order (w : World) (keyRef kmsVal certRef sigRef blobRef : Bytes) :
    (Ev.opTrustedCert ∈ (VerifyBlobCmd w keyRef kmsVal certRef sigRef blobRef).2 →
       ∃ A B, (VerifyBlobCmd w keyRef kmsVal certRef sigRef blobRef).2
           = A ++ Ev.opVerify :: B
         ∧ Ev.opTrustedCert ∉ A ∧ Ev.opTrustedCert ∈ B)
    ∧ (∀ e, (VerifyBlobCmd w keyRef kmsVal certRef sigRef blobRef).1
          = Outcome.error (.verifyFailed e) →
        Ev.opTrustedCert ∉ (VerifyBlobCmd w keyRef kmsVal certRef sigRef blobRef).2
        ∧ Ev.ioGetRekorClient ∉ (VerifyBlobCmd w keyRef kmsVal certRef sigRef blobRef).2
        ∧ Ev.ioFindTlog ∉ (VerifyBlobCmd w keyRef kmsVal certRef sigRef blobRef).2)
    ∧ (Ev.opTrustedCert ∈ (VerifyBlobCmd w keyRef kmsVal certRef sigRef blobRef).2 →
        keyRef = [] ∧ kmsVal = [] ∧ certRef ≠ []) := by
  obtain ⟨t2, t3, t4, t5, t6, htr, h2, h3, h4, h5, h6, h6x, hvf⟩ :=
    VerifyBlobCmd_shape w keyRef kmsVal certRef sigRef blobRef
  have hnot1 : Ev.opTrustedCert ∉ (resolveKey w keyRef kmsVal certRef).2 := by
    intro hm
    rcases resolveKey_events hm with h | h | h <;> simp at h
  have hnot2 : Ev.opTrustedCert ∉ t2 := by
    intro hm
    rcases h2 _ hm with h | h <;> simp at h
  have hnot3 : Ev.opTrustedCert ∉ t3 := by
    intro hm
    rcases h3 _ hm with h | h <;> simp at h
  have hnot6 : Ev.opTrustedCert ∉ t6 := by
    intro hm
    rcases h6 _ hm with h | h <;> simp at h
  have hform : Ev.opTrustedCert ∈ (VerifyBlobCmd w keyRef kmsVal certRef sigRef blobRef).2 →
      t5 = [Ev.opTrustedCert] ∧ t4 = [Ev.opVerify] ∧
      ∃ pk cert, (resolveKey w keyRef kmsVal certRef).1 = KeyRes.ok pk (some cert) := by
    intro hmem
    rw [htr] at hmem
    simp only [List.mem_append] at hmem
    rcases hmem with hm | hm | hm | hm | hm | hm
    · exact absurd hm hnot1
    · exact absurd hm hnot2
    · exact absurd hm hnot3
    · rcases h4 with h | h <;> subst h <;> simp at hm
    · rcases h5 with h | h
      · subst h; simp at hm
      · exact h
    · exact absurd hm hnot6
  refine ⟨?_, ?_, ?_⟩
  · intro hmem
    obtain ⟨h5e, h4e, pk, cert, hok⟩ := hform hmem
    refine ⟨(resolveKey w keyRef kmsVal certRef).2 ++ (t2 ++ t3), t5 ++ t6, ?_, ?_, ?_⟩
    · rw [htr, h4e]
      simp [List.append_assoc]
    · intro hm
      simp only [List.mem_append] at hm
      rcases hm with hm | hm | hm
      · exact hnot1 hm
      · exact hnot2 hm
      · exact hnot3 hm
    · rw [h5e]
      simp
  · intro e he
    obtain ⟨h5e, h6e⟩ := hvf e he
    subst h5e h6e
    refine ⟨?_, ?_, ?_⟩ <;> intro hm <;> rw [htr] at hm <;>
      simp only [List.mem_append, List.append_nil, List.not_mem_nil,
        or_false] at hm
    · rcases hm with hm | hm | hm | hm
      · exact hnot1 hm
      · exact hnot2 hm
      · exact hnot3 hm
      · rcases h4 with h | h <;> subst h <;> simp at hm
    · rcases hm with hm | hm | hm | hm
      · rcases resolveKey_events hm with h | h | h <;> simp at h
      · rcases h2 _ hm with h | h <;> simp at h
      · rcases h3 _ hm with h | h <;> simp at h
      · rcases h4 with h | h <;> subst h <;> simp at hm
    · rcases hm with hm | hm | hm | hm
      · rcases resolveKey_events hm with h | h | h <;> simp at h
      · rcases h2 _ hm with h | h <;> simp at h
      · rcases h3 _ hm with h | h <;> simp at h
      · rcases h4 with h | h <;> subst h <;> simp at hm
  · intro hmem
    obtain ⟨_, _, pk, cert, hok⟩ := hform hmem
    exact resolveKey_cert_mode hok

/-- C5 witness: a successful certificate-mode run at a concrete world,
whose trace contains the trust-chain event, was in certificate mode. -/
theorem C5_witness : ([] : Bytes) = [] ∧ ([] : Bytes) = [] ∧ ([99] : Bytes) ≠ [] :=
  (C5_verify_order w2 [] [] [99] sigB [98]).2.2 (by decide)

/-- C6: the transparency-log check runs only in experimental mode: with
it disabled no run ever contacts the log service and a run that passes
Verify (and, in certificate mode, the trust check) succeeds; with it
enabled, failure to obtain the log client or to find and validate the
entry is terminal. -/
theorem C6_transparency (w : World) (keyRef kmsVal certRef sigRef blobRef : Bytes) :
    (w.experimental = false →
       Ev.ioGetRekorClient ∉ (VerifyBlobCmd w keyRef kmsVal certRef sigRef blobRef).2
       ∧ Ev.ioFindTlog ∉ (VerifyBlobCmd w keyRef kmsVal certRef sigRef blobRef).2)
    ∧ (∀ pk certOpt t1 b64sig t2 blobBytes t3 sig t5,
        resolveKey w keyRef kmsVal certRef = (.ok pk certOpt, t1) →
        resolveSig w sigRef = (.ok b64sig, t2) →
        readBlob w blobRef = (.ok blobBytes, t3) →
        b64decode b64sig = some sig →
        w.verify pk blobBytes sig = .ok () →
        certCheck w certOpt = (.ok (), t5) →
        ((w.experimental = false →
           (VerifyBlobCmd w keyRef kmsVal certRef sigRef blobRef).1 = Outcome.ok)
         ∧ (∀ e t6, tlogCheck w pk certOpt b64sig blobBytes = (.error e, t6) →
             (VerifyBlobCmd w keyRef kmsVal certRef sigRef blobRef).1
               = Outcome.error e))) := by
  constructor
  · intro hx
    obtain ⟨t2, t3, t4, t5, t6, htr, h2, h3, h4, h5, h6, h6x, hvf⟩ :=
      VerifyBlobCmd_shape w keyRef kmsVal certRef sigRef blobRef
    have h6nil : t6 = [] := by
      by_contra hne
      rw [h6x hne] at hx
      cases hx
    subst h6nil
    constructor <;> intro hm <;> rw [htr] at hm <;>
      simp only [List.mem_append, List.append_nil, List.not_mem_nil,
        or_false] at hm
    · rcases hm with hm | hm | hm | hm | hm
      · rcases resolveKey_events hm with h | h | h <;> simp at h
      · rcases h2 _ hm with h | h <;> simp at h
      · rcases h3 _ hm with h | h <;> simp at h
      · rcases h4 with h | h <;> subst h <;> simp at hm
      · rcases h5 with h | ⟨h, _, _⟩ <;> subst h <;> simp at hm
    · rcases hm with hm | hm | hm | hm | hm
      · rcases resolveKey_events hm with h | h | h <;> simp at h
      · rcases h2 _ hm with h | h <;> simp at h
      · rcases h3 _ hm with h | h <;> simp at h
      · rcases h4 with h | h <;> subst h <;> simp at hm
      · rcases h5 with h | ⟨h, _, _⟩ <;> subst h <;> simp at hm
  · intro pk certOpt t1 b64sig t2 blobBytes t3 sig t5 hRK hRS hRB hDec hV hCC
    constructor
    · intro hx
      simp [VerifyBlobCmd, hRK, hRS, hRB, hDec, hV, hCC,
        tlogCheck_not_experimental hx]
    · intro e t6 hTC
      simp [VerifyBlobCmd, hRK, hRS, hRB, hDec, hV, hCC, hTC]

/-- C6 witness: with transparency disabled, the successful run at a
concrete world never touched the log service. -/
theorem C6_witness :
    Ev.ioGetRekorClient ∉ (VerifyBlobCmd w2 [] [] [99] sigB [98]).2
    ∧ Ev.ioFindTlog ∉ (VerifyBlobCmd w2 [] [] [99] sigB [98]).2 :=
  (C6_transparency w2 [] [] [99] sigB [98]).1 rfl

/-- C7: in certificate mode a PEM bundle with no certificate fails with
the no-certificates format error, and when the bundle is non-empty
exactly its first certificate becomes the signing leaf. -/
theorem C7_cert_bundle (w : World) (certRef sigRef blobRef pems : Bytes)
    (hc : certRef ≠ []) (hrf : w.readFile certRef = .ok pems) :
    (w.loadCerts pems = .ok [] →
       VerifyBlobCmd w [] [] certRef sigRef blobRef
         = (.error .noCertsFound, [.ioReadFile certRef]))
    ∧ (∀ c cs k, w.loadCerts pems = .ok (c :: cs) → c.publicKey = .ec k →
        resolveKey w [] [] certRef
          = (.ok (.ecdsaKey k) (some c), [.ioReadFile certRef])) := by
  constructor
  · intro hlc
    simp [VerifyBlobCmd, resolveKey, hc, hrf, hlc]
  · intro c cs k hlc hpk
    simp [resolveKey, hc, hrf, hlc, hpk]

/-- C7 witness: an empty bundle at a concrete world yields the format
error. -/
theorem C7_witness :
    VerifyBlobCmd w3 [] [] [99] [115] [98]
      = (.error .noCertsFound, [.ioReadFile [99]]) :=
  (C7_cert_bundle w3 [99] [115] [98] [80] (by decide) rfl).1 rfl

/-- C8: decoding an encoded payload returns the same logical payload
(same artifact identity, annotation entries a permutation of the input,
and re-encoding reproduces the same bytes), and encoding is
deterministic: two payloads equal up to annotation order encode to
byte-identical output. -/
theorem C8_codec_roundtrip (p : ImagePayload) (hn : NodupKeys p.Annotations) :
    (∃ p', decodePayload (encodePayload p) = some p'
       ∧ p'.Img = p.Img ∧ List.Perm p'.Annotations p.Annotations
       ∧ encodePayload p' = encodePayload p)
    ∧ (∀ q : ImagePayload, q.Img = p.Img →
        List.Perm q.Annotations p.Annotations → encodePayload q = encodePayload p) := by
  have hsort : ∀ q : ImagePayload, List.Perm q.Annotations p.Annotations →
      sortAnnots q.Annotations = sortAnnots p.Annotations := by
    intro q hqa
    exact sortAnnots_eq_of_perm hqa (nodupKeys_of_perm hqa.symm hn)
  constructor
  · refine ⟨⟨p.Img, sortAnnots p.Annotations⟩, decodePayload_encodePayload p, rfl,
      sortAnnots_perm p.Annotations, ?_⟩
    have hss : sortAnnots (sortAnnots p.Annotations) = sortAnnots p.Annotations :=
      hsort ⟨p.Img, sortAnnots p.Annotations⟩ (sortAnnots_perm p.Annotations)
    simp [encodePayload, hss]
  · intro q hqi hqa
    simp [encodePayload, hqi, hsort q hqa]

/-- C8 witness: two concrete orderings of the same annotation map encode
identically. -/
theorem C8_witness : encodePayload q0 = encodePayload p0 :=
  (C8_codec_roundtrip p0 (by decide)).2 q0 rfl (by decide)

/-- C9: ImageSignature fails exactly when payload marshalling or the
signer's Sign fails (marshalling is total here, so exactly when Sign
fails), and on success the returned signature is the signer's signature
over exactly the returned payload bytes. -/
theorem C9_image_signature (signer : Signer) (img : Descriptor) (anns : List KV)
    (payload : Bytes) (hm : MarshalJSON ⟨img, anns⟩ = .ok payload) :
    ((∃ e, ImageSignature signer img anns = .error e) ↔
       (∃ e, signer payload = .error e))
    ∧ (∀ pl sg, ImageSignature signer img anns = .ok (pl, sg) →
        pl = payload ∧ signer pl = .ok sg) := by
  have hp : payload = encodePayload ⟨img, anns⟩ := by
    unfold MarshalJSON at hm
    injection hm with h
    exact h.symm
  subst hp
  cases hs : signer (encodePayload ⟨img, anns⟩) with
  | error e =>
    have hIS : ImageSignature signer img anns
        = .error ("failed to create signature: " ++ e) := by
      simp [ImageSignature, MarshalJSON, PayloadSignature, hs]
    constructor
    · constructor
      · intro _
        exact ⟨e, rfl⟩
      · intro _
        exact ⟨_, hIS⟩
    · intro pl sg h
      rw [hIS] at h
      cases h
  | ok s =>
    have hIS : ImageSignature signer img anns
        = .ok (encodePayload ⟨img, anns⟩, s) := by
      simp [ImageSignature, MarshalJSON, PayloadSignature, hs]
    constructor
    · constructor
      · rintro ⟨e, he⟩
        rw [hIS] at he
        cases he
      · rintro ⟨e, he⟩
        cases he
    · intro pl sg h
      rw [hIS] at h
      injection h with h1
      injection h1 with he1 he2
      refine ⟨he1.symm, ?_⟩
      rw [← he1, hs, he2]

/-- C9 witness: a succeeding signer at a concrete payload. -/
theorem C9_witness :
    encodePayload ⟨img0, []⟩ = encodePayload ⟨img0, []⟩
    ∧ sOK (encodePayload ⟨img0, []⟩) = .ok [9] :=
  (C9_image_signature sOK img0 [] (encodePayload ⟨img0, []⟩) rfl).2
    (encodePayload ⟨img0, []⟩) [9] rfl

/-- C10: for the signature argument, when stat succeeds the (cleaned)
path's contents are read and normalized — the argument is not taken as a
literal; the argument is taken as the literal base64 text exactly when
stat reports not-exist (and then no read happens); any other stat
failure aborts the whole verification with that error. -/
theorem C10_sig_argument (w : World) (sigRef : Bytes) :
    (∀ b, w.stat sigRef = .found → w.readFile (w.clean sigRef) = .ok b →
       resolveSig w sigRef
         = (.ok (normalizeSig b), [.ioStat sigRef, .ioReadFile (w.clean sigRef)]))
    ∧ (w.stat sigRef = .notExist →
       resolveSig w sigRef = (.ok sigRef, [.ioStat sigRef]))
    ∧ (∀ e, w.stat sigRef = .otherErr e →
       resolveSig w sigRef = (.error (.statOtherErr e), [.ioStat sigRef])
       ∧ ∀ keyRef kmsVal certRef blobRef pk co t1,
           resolveKey w keyRef kmsVal certRef = (.ok pk co, t1) →
           (VerifyBlobCmd w keyRef kmsVal certRef sigRef blobRef).1
             = .error (.statOtherErr e)) := by
  refine ⟨?_, ?_, ?_⟩
  · intro b hst hrf
    simp [resolveSig, hst, hrf]
  · intro hst
    simp [resolveSig, hst]
  · intro e hst
    constructor
    · simp [resolveSig, hst]
    · intro keyRef kmsVal certRef blobRef pk co t1 hRK
      simp [VerifyBlobCmd, hRK, resolveSig, hst]

/-- C10 witness: a not-exist stat takes the argument as the literal. -/
theorem C10_witness :
    resolveSig w0 [115] = (.ok [115], [.ioStat [115]]) :=
  (C10_sig_argument w0 [115]).2.1 rfl

end Cosign
